import Mathlib

/-!
Shallow embedding of the step-execution core of the openspace platform
installer: the state manager (`src/data/lib/state.py`), placeholder
rendering (`src/data/lib/config.py`), inventory host resolution
(`src/data/lib/inventory.py`), command building and the process runner
(`src/data/lib/executor.py`), and the step executor orchestration
(`src/data/lib/step_executor.py`) together with the driving loop of
`src/data/deploy-env.py`.  External effects (file existence, process
exit codes) are supplied by an explicit `World` record.
-/

/-- Decidable equality on `Except`, so that concrete runs of the
fallible operations can be checked by evaluation. -/
instance {ε α : Type} [DecidableEq ε] [DecidableEq α] : DecidableEq (Except ε α) := fun x y =>
  match x, y with
  | .ok a, .ok b =>
    if h : a = b then .isTrue (by rw [h]) else .isFalse (by intro hc; cases hc; exact h rfl)
  | .error a, .error b =>
    if h : a = b then .isTrue (by rw [h]) else .isFalse (by intro hc; cases hc; exact h rfl)
  | .ok _, .error _ => .isFalse (by intro hc; cases hc)
  | .error _, .ok _ => .isFalse (by intro hc; cases hc)

/-- Association-list lookup, modelling Python `dict` key access
(`d[k]` / `k in d`); keys are unique in every dict the code builds, so
first-match lookup coincides with dict lookup. -/
def assocFind {α : Type} : List (String × α) → String → Option α
  | [], _ => none
  | (k, v) :: rest, key => if k == key then some v else assocFind rest key

/-- Association-list update, modelling Python `d[k] = v`: replace the
value at an existing key in place, otherwise append the new binding. -/
def setAssoc {α : Type} : List (String × α) → String → α → List (String × α)
  | [], key, v => [(key, v)]
  | (k, v0) :: rest, key, v =>
    if k == key then (k, v) :: rest else (k, v0) :: setAssoc rest key v

/-- Python `a.update(b)` on string-valued dicts: fold the bindings of
`b` into `a`, later bindings overriding earlier ones. -/
def updateAssoc (a b : List (String × String)) : List (String × String) :=
  b.foldl (fun acc kv => setAssoc acc kv.1 kv.2) a

/-- One entry of the execution ledger's `steps` mapping
(`state["steps"][key]` in `src/data/lib/state.py`). -/
structure StepEntry where
  status : String
  log : Option String := none
  kind : Option String := none
  description : Option String := none
  reason : Option String := none
deriving Repr, DecidableEq

/-- The `steps` mapping of the ledger: an insertion-ordered dict from
record key to entry. -/
abbrev LedgerSteps := List (String × StepEntry)

/-- Python `state["steps"].get(key)`. -/
def lookupStep (steps : LedgerSteps) (key : String) : Option StepEntry :=
  assocFind steps key

/-- `StateManager.mark_running` (state.py lines 75-84): overwrite the
entry for `key` with a fresh `running` record carrying the metadata
keyword arguments the executor passes (log, kind, description). -/
def markRunning (steps : LedgerSteps) (key log kind description : String) : LedgerSteps :=
  setAssoc steps key
    { status := "running", log := some log, kind := some kind, description := some description }

/-- Shared body of `mark_success` / `mark_failed`: if the key is
present, replace just the `status` field of its entry; otherwise do
nothing. -/
def setStatusIn : LedgerSteps → String → String → LedgerSteps
  | [], _, _ => []
  | (k0, e0) :: rest, key, status =>
    if k0 == key then (k0, { e0 with status := status }) :: setStatusIn rest key status
    else (k0, e0) :: setStatusIn rest key status

/-- `StateManager.mark_success` (state.py lines 86-95). -/
def markSuccess (steps : LedgerSteps) (key : String) : LedgerSteps :=
  setStatusIn steps key "ok"

/-- `StateManager.mark_failed` (state.py lines 97-106). -/
def markFailed (steps : LedgerSteps) (key : String) : LedgerSteps :=
  setStatusIn steps key "failed"

/-- `StateManager.mark_skipped` (state.py lines 108-119): overwrite the
entry with a bare `skipped` record, adding a `reason` field only when
the reason string is non-empty (Python truthiness of `reason`). -/
def markSkipped (steps : LedgerSteps) (key reason : String) : LedgerSteps :=
  setAssoc steps key
    { status := "skipped", reason := if reason == "" then none else some reason }

/-- `StateManager.is_completed` (state.py lines 121-131):
`state.get("steps", {}).get(step_id, {}).get("status") == "ok"`. -/
def isCompleted (steps : LedgerSteps) (key : String) : Bool :=
  match lookupStep steps key with
  | some e => e.status == "ok"
  | none => false

/-- `StateManager.get_step_status` (state.py lines 133-143). -/
def getStepStatus (steps : LedgerSteps) (key : String) : Option String :=
  (lookupStep steps key).map (·.status)

/-- The full persisted ledger document. -/
structure Ledger where
  env : Option String := none
  deployment_type : Option String := none
  deployment_plan : Option String := none
  steps : LedgerSteps := []
deriving Repr, DecidableEq

/-- What the state file on disk offers to `StateManager._load`: the
file may be absent, may fail to parse, or may parse to a ledger. -/
inductive LoadSource where
  | missing
  | parseFailure
  | parsed (l : Ledger)

/-- `StateManager._load` (state.py lines 40-48): return the parsed
document when the file exists and parses; on a missing file or any
load exception, log a warning and return the fresh document
`{"steps": {}}` instead of raising. -/
def stateLoad : LoadSource → Ledger
  | .missing => {}
  | .parseFailure => {}
  | .parsed l => l

/-- A scalar-or-not YAML value stored in `group_vars`, as classified by
`isinstance(value, (str, int, float, bool))` in
`replace_placeholders`; non-scalar values are never substituted. -/
inductive VarVal where
  | str (s : String)
  | int (n : Int)
  | bool (b : Bool)
  | other
deriving Repr, DecidableEq

/-- Python `str(value)` on the scalar variants, `none` on non-scalars
(which `replace_placeholders` skips). -/
def VarVal.strOf : VarVal → Option String
  | .str s => some s
  | .int n => some (toString n)
  | .bool b => some (if b then "True" else "False")
  | .other => none

/-- Worker for `pyReplace`: scan the character list left to right,
replacing each non-overlapping occurrence of `pat` by `rep`; the fuel
argument (initialised to the list length, an upper bound on the number
of scan positions) only makes the recursion structural. -/
def listReplaceAux (pat rep : List Char) : Nat → List Char → List Char
  | 0, s => s
  | fuel + 1, s =>
    match s with
    | [] => []
    | c :: rest =>
      if pat.isPrefixOf (c :: rest) then
        rep ++ listReplaceAux pat rep fuel ((c :: rest).drop pat.length)
      else
        c :: listReplaceAux pat rep fuel rest

/-- Python `s.replace(pat, rep)` for a non-empty pattern: left-to-right
replacement of non-overlapping occurrences.  (The patterns the code
uses are always brace-wrapped and hence non-empty; an empty pattern is
mapped to the identity.) -/
def pyReplace (s pat rep : String) : String :=
  if pat.isEmpty then s
  else ⟨listReplaceAux pat.data rep.data s.data.length s.data⟩

/-- `replace_placeholders` (config.py lines 97-132): literal
substring replacement of `{env}`, `{deployment}`, `{deployment_type}`,
then one pass per scalar `group_vars` entry in mapping order. -/
def replacePlaceholders (text env_name deployment_plan deployment_type : String)
    (group_vars : List (String × VarVal)) : String :=
  let base := pyReplace (pyReplace (pyReplace text "{env}" env_name)
    "{deployment}" deployment_plan) "{deployment_type}" deployment_type
  group_vars.foldl
    (fun acc kv =>
      match kv.2.strOf with
      | some s => pyReplace acc ("\x7b" ++ kv.1 ++ "\x7d") s
      | none => acc)
    base

/-- The step's `hosts` field: either a single host/group name string or
an ordered list of names (the two shapes the code probes with
`isinstance(hosts, list)`). -/
inductive Hosts where
  | str (s : String)
  | list (l : List String)
deriving Repr, DecidableEq

/-- One step of the deployment plan, mirroring the dict fields the
executor probes with `step.get(...)`; `none` models an absent key. -/
structure Step where
  id : Option String := none
  description : Option String := none
  desc : Option String := none
  kind : Option String := none
  hosts : Option Hosts := none
  iterate : Bool := false
  file : Option String := none
  command : Option String := none
  args : List String := []
  timeout : Option Nat := none
  on_failure : Option String := none
deriving Repr, DecidableEq

/-- `step.get("kind", "")`. -/
def Step.getKind (s : Step) : String := s.kind.getD ""

/-- `step.get("on_failure", "fail")`. -/
def Step.getOnFailure (s : Step) : String := s.on_failure.getD "fail"

/-- `step.get("hosts", "localhost")`. -/
def Step.getHostsD (s : Step) : Hosts := s.hosts.getD (.str "localhost")

/-- `str(step.get("id", index))`: the ledger key stem of a step, its
1-based position when no explicit `id` is present. -/
def stepIdOf (step : Step) (index : Nat) : String :=
  step.id.getD (toString index)

/-- Second half of `step.get("description") or step.get("desc") or
"No description"`: Python `or` falls through on a missing key or an
empty (falsy) string. -/
def descFallback (step : Step) : String :=
  match step.desc with
  | some d => if d == "" then "No description" else d
  | none => "No description"

/-- `step.get("description") or step.get("desc") or "No description"`. -/
def descOf (step : Step) : String :=
  match step.description with
  | some d => if d == "" then descFallback step else d
  | none => descFallback step

/-- How an f-string renders the step's `hosts` value inside the
iterated description `f"{description} (on {current_host})"`. -/
def hostsText : Option Hosts → String
  | some (.str s) => s
  | some (.list l) =>
    "[" ++ String.intercalate ", " (l.map (fun s => "\x27" ++ s ++ "\x27")) ++ "]"
  | none => "None"

/-- Python `s.lower()` (character-wise ASCII lowering, which is all
the kind strings exercise). -/
def pyLower (s : String) : String := ⟨s.data.map Char.toLower⟩

/-- `StepExecutor._should_iterate` (step_executor.py lines 75-82):
iterate only for a lower-cased `command` kind with `iterate` set and a
hosts list longer than one. -/
def shouldIterate (step : Step) : Bool :=
  pyLower step.getKind == "command" && step.iterate &&
    (match step.getHostsD with
     | .list l => decide (1 < l.length)
     | .str _ => false)

/-- `step.get("hosts", [])` as iterated by `_execute_iterated`: a list
iterates over its elements; a string would iterate over its characters
(Python string iteration); an absent key yields the empty default. -/
def Step.hostsListD (s : Step) : List String :=
  match s.hosts with
  | some (.list l) => l
  | some (.str str) => str.toList.map (fun c => String.mk [c])
  | none => []

/-- Truthiness check `if not command_text` on `step.get("command")`:
missing key or empty string. -/
def commandMissing (step : Step) : Bool :=
  match step.command with
  | none => true
  | some c => c == ""

/-- Truthiness check `if not file_path` on `step.get("file")`. -/
def fileMissing (step : Step) : Bool :=
  match step.file with
  | none => true
  | some f => f == ""

/-- Python `s.startswith(pre)` as a character-list prefix test. -/
def pyStartsWith (s pre : String) : Bool := pre.data.isPrefixOf s.data

/-- `find_step_file` (inventory.py lines 97-126): an absolute path is
accepted only under the `/docker-workspace/config/` prefix, otherwise
an `InventoryError` is raised; a relative path is resolved under the
data directory. -/
def findStepFile (file_path : String) (data_dir : String) : Except String String :=
  if pyStartsWith file_path "/" then
    if pyStartsWith file_path "/docker-workspace/config/" then .ok file_path
    else .error ("Use relative paths in deployments (relative to " ++ data_dir ++ "): " ++ file_path)
  else .ok (data_dir ++ "/" ++ file_path)

/-- A nested inventory group: its `vars` mapping, its optional `hosts`
mapping (host name to host-variable dict; `none` models an absent
`hosts` key), and its `children` mapping of sub-groups. -/
inductive InvGroup where
  | mk (vars : List (String × String))
       (hostsMap : Option (List (String × List (String × String))))
       (children : List (String × InvGroup))

/-- The `vars` mapping of a group (empty when the key is absent;
updating with an empty dict is a no-op, so the two are
indistinguishable). -/
def InvGroup.varsOf : InvGroup → List (String × String)
  | .mk v _ _ => v

/-- The optional `hosts` mapping of a group. -/
def InvGroup.hostsOf : InvGroup → Option (List (String × List (String × String)))
  | .mk _ h _ => h

/-- The `children` mapping of a group. -/
def InvGroup.childrenOf : InvGroup → List (String × InvGroup)
  | .mk _ _ c => c

mutual
/-- `find_host` inside `get_host_from_inventory` (inventory.py lines
45-81): merge this level's vars over the inherited ones; if the target
names a host at this level, return its data overridden by the merged
vars; if it names a child group, return that group's first listed host
(raising `IndexError`, modelled as `Except.error`, when the group's
`hosts` dict is empty); otherwise recurse into each child in order,
treating a falsy (empty-dict) result like a miss. -/
def findHost (g : InvGroup) (target : String) (parentVars : List (String × String)) :
    Except Unit (Option (List (String × String))) :=
  match g with
  | .mk vars hostsMap children =>
    let currentVars := updateAssoc parentVars vars
    match hostsMap.bind
        (fun hs => (assocFind hs target).map (fun hd => updateAssoc hd currentVars)) with
    | some r => .ok (some r)
    | none =>
      match assocFind children target with
      | some gd =>
        (match gd.hostsOf with
         | some [] => .error ()
         | some ((_, hd) :: _) =>
           .ok (some (updateAssoc (updateAssoc hd gd.varsOf) currentVars))
         | none => findHostChildren children target currentVars)
      | none => findHostChildren children target currentVars

/-- The `for child_name, child_data in data["children"].items()` loop
of `find_host`: recurse into the children in order, returning the
first truthy result. -/
def findHostChildren (cs : List (String × InvGroup)) (target : String)
    (currentVars : List (String × String)) :
    Except Unit (Option (List (String × String))) :=
  match cs with
  | [] => .ok none
  | (_, c) :: rest =>
    match findHost c target currentVars with
    | .error e => .error e
    | .ok (some r) =>
      if r.isEmpty then findHostChildren rest target currentVars else .ok (some r)
    | .ok none => findHostChildren rest target currentVars
end

/-- The fixed local descriptor returned for `localhost`
(inventory.py lines 83-85); `user` stands for `os.getenv("USER", "root")`. -/
def localDescriptor (user : String) : List (String × String) :=
  [("ansible_host", "localhost"), ("ansible_user", user)]

/-- How `get_host_from_inventory` can fail: the `InventoryError`
raised for an unresolved name, or an uncaught crash (the `IndexError`
from a group with an empty `hosts` dict). -/
inductive HostErr where
  | notFound (msg : String)
  | crash
deriving Repr, DecidableEq

/-- The `InventoryError` message for an unresolved name. -/
def hostNotFoundMsg (name : String) : String :=
  "Host or group " ++ name ++ " not found in inventory"

/-- `get_host_from_inventory` (inventory.py lines 83-94), after the
inventory document has been loaded: `localhost` short-circuits to the
fixed local descriptor; otherwise search from the `all` group and
raise `InventoryError` when the result is falsy (absent or an empty
dict). -/
def getHostFromInventory (user : String) (inv : InvGroup) (host_or_group : String) :
    Except HostErr (List (String × String)) :=
  if host_or_group == "localhost" then .ok (localDescriptor user)
  else
    match findHost inv host_or_group [] with
    | .error _ => .error .crash
    | .ok none => .error (.notFound (hostNotFoundMsg host_or_group))
    | .ok (some l) =>
      if l.isEmpty then .error (.notFound (hostNotFoundMsg host_or_group))
      else .ok l

/-- `build_ssh_command` (executor.py lines 17-67): assemble the ssh
argument vector from the resolved host info, prepending `sshpass` only
for a truthy password, adding the identity flag only for a present key
file, the port flag only off the default, and ending with
`user@host` followed by the remote command. -/
def buildSshCommand (host_info : List (String × String)) (remote_command : String) :
    List String :=
  let passPart :=
    match assocFind host_info "ansible_ssh_pass" with
    | some p => if p == "" then [] else ["sshpass", "-p", p]
    | none => []
  let keyPart :=
    match assocFind host_info "ansible_ssh_private_key_file" with
    | some k => if k == "" then [] else ["-i", k]
    | none => []
  let port := (assocFind host_info "ansible_port").getD "22"
  let portPart := if port == "22" then [] else ["-p", port]
  let user := (assocFind host_info "ansible_user").getD "root"
  let host := (assocFind host_info "ansible_host").getD "localhost"
  passPart ++ ["ssh", "-o", "StrictHostKeyChecking=no", "-o", "UserKnownHostsFile=/dev/null",
    "-o", "ConnectTimeout=30", "-tt"] ++ keyPart ++ portPart ++
    [user ++ "@" ++ host, remote_command]

/-- How `build_command` can fail: an `ExecutionError` (the only kind
`_execute_single` catches), the `InventoryError` escaping from host
resolution, or the `IndexError` from `hosts[0]` on an empty list. -/
inductive BuildErr where
  | execError (msg : String)
  | inventoryError (msg : String)
  | indexError
deriving Repr, DecidableEq

/-- `str(step_file)` as interpolated into the argument vector;
Python renders `None` as the string `"None"`. -/
def fileStr : Option String → String
  | some p => p
  | none => "None"

/-- Truthiness of the `hosts` value (`if hosts and ...`). -/
def hostsTruthy : Hosts → Bool
  | .str s => s != ""
  | .list l => !l.isEmpty

/-- The comma join `",".join(hosts)` used for the Ansible
`target_hosts` extra variable (a plain string passes through). -/
def hostsJoin : Hosts → String
  | .str s => s
  | .list l => String.intercalate "," l

/-- The execution context: the fields of `ExecutionContext` the core
reads, plus the loaded inventory document and the `USER` environment
variable consulted by host resolution. -/
structure ExecCtx where
  env_name : String
  deployment_plan : String
  deployment_type : String
  group_vars : List (String × VarVal)
  data_dir : String
  log_path : String
  inventory_file : String
  user : String
  inventory : InvGroup
  resume : Bool

/-- `build_command` (executor.py lines 70-158): dispatch on the
lower-cased kind.  A `command` step renders its text and wraps it in a
local `/bin/bash -c` for `localhost` or an ssh vector for a remote
target (resolving the first host of a list); `ansible` builds an
`ansible-playbook` vector with a `target_hosts` extra variable for
non-localhost hosts; the script kinds invoke the matching interpreter
on the file; anything else raises `ExecutionError`. -/
def buildCommand (ctx : ExecCtx) (step : Step) (step_file : Option String)
    (rendered_args : List String) : Except BuildErr (List String) :=
  let kind := pyLower step.getKind
  let hosts := step.getHostsD
  if kind == "command" then
    match step.command with
    | none => .error (.execError "command kind requires command field")
    | some c =>
      if c == "" then .error (.execError "command kind requires command field")
      else
        let rendered := replacePlaceholders c ctx.env_name ctx.deployment_plan
          ctx.deployment_type ctx.group_vars
        match (match hosts with
               | .str s => some s
               | .list [] => none
               | .list (h :: _) => some h) with
        | none => .error .indexError
        | some target =>
          if target == "localhost" then .ok ["/bin/bash", "-c", rendered]
          else
            match getHostFromInventory ctx.user ctx.inventory target with
            | .error (.notFound m) => .error (.inventoryError m)
            | .error .crash => .error .indexError
            | .ok hi => .ok (buildSshCommand hi rendered)
  else if kind == "ansible" then
    let base := ["ansible-playbook", "-i", ctx.inventory_file, fileStr step_file]
    let withHosts :=
      if hostsTruthy hosts && !(hosts == Hosts.str "localhost") then
        base ++ ["-e", "target_hosts=" ++ hostsJoin hosts]
      else base
    .ok (withHosts ++ rendered_args)
  else if kind == "python" || kind == "python3" then
    .ok (["python3", fileStr step_file] ++ rendered_args)
  else if kind == "shell" || kind == "bash" || kind == "sh" then
    .ok ([if kind == "sh" then "/bin/sh" else "/bin/bash", fileStr step_file] ++ rendered_args)
  else .error (.execError ("Unknown step kind: " ++ kind))

/-- The three ways a spawned process invocation can end, as observed
by `run_command` (executor.py lines 161-226): a normal exit with some
code, expiry of the optional timeout, or any other exception while
spawning or reading. -/
inductive ProcOutcome where
  | exited (code : Int)
  | timedOut
  | failedToRun
deriving Repr, DecidableEq

/-- The exit code `run_command` returns for each outcome: the child's
own code on a normal exit, the reserved code 124 after killing a
timed-out child, and 1 for any other failure to run. -/
def runCommandExit : ProcOutcome → Int
  | .exited code => code
  | .timedOut => 124
  | .failedToRun => 1

/-- The external world as the step executor sees it: whether a given
path exists, and how the process behind a given argument vector and
log file terminates. -/
structure World where
  fileExists : String → Bool
  procOutcome : List String → String → ProcOutcome

/-- The exit code the executor receives from `run_command` for an
argument vector and log file. -/
def World.runExit (w : World) (argv : List String) (log_file : String) : Int :=
  runCommandExit (w.procOutcome argv log_file)

/-- The result of one `execute_step` / `_execute_single` call:
`cont` models returning `True` (proceed with the next step), `halt`
models returning `False` (stop the run), and `crash` models an
exception that the executor does not catch (`InventoryError` or
`IndexError` escaping from `build_command`). -/
inductive ExecResult where
  | cont
  | halt
  | crash
deriving Repr, DecidableEq

/-- The description used for one execution unit: the step description,
suffixed with `" (on <host>)"` when executing one iteration of an
iterated step (step_executor.py lines 115-118). -/
def unitDesc (step : Step) (suffix : String) : String :=
  let d := descOf step
  if suffix == "" then d else d ++ " (on " ++ hostsText step.hosts ++ ")"

/-- The file-name sanitisation of the description
(step_executor.py line 172). -/
def safeDesc (d : String) : String :=
  pyReplace (pyReplace (pyReplace (pyReplace d " " "_") "/" "-") "(" "") ")" ""

/-- The per-unit log file path
`log_path / f"{step_id}{suffix}-{safe_desc}.log"`. -/
def unitLogFile (ctx : ExecCtx) (step : Step) (index : Nat) (suffix : String) : String :=
  ctx.log_path ++ "/" ++ stepIdOf step index ++ suffix ++ "-" ++
    safeDesc (unitDesc step suffix) ++ ".log"

/-- The tail of `_execute_single` (step_executor.py lines 163-219)
once the unit's required fields are validated: build the argument
vector (an `ExecutionError` marks the unit skipped and halts, while
other exceptions escape), mark the unit `running`, run the process,
then mark `ok` on a zero exit or `failed` otherwise, halting on
failure unless `on_failure == "continue"`. -/
def executeBuildAndRun (ctx : ExecCtx) (w : World) (steps : LedgerSteps) (step : Step)
    (index : Nat) (suffix : String) (step_file : Option String)
    (rendered_args : List String) : LedgerSteps × ExecResult :=
  let key := stepIdOf step index ++ suffix
  match buildCommand ctx step step_file rendered_args with
  | .error (.execError msg) => (markSkipped steps key msg, .halt)
  | .error (.inventoryError _) => (steps, .crash)
  | .error .indexError => (steps, .crash)
  | .ok argv =>
    let log_file := unitLogFile ctx step index suffix
    let running := markRunning steps key log_file step.getKind (unitDesc step suffix)
    let exit_code := w.runExit argv log_file
    if exit_code = 0 then (markSuccess running key, .cont)
    else
      (markFailed running key,
        if step.getOnFailure == "continue" then .cont else .halt)

/-- `StepExecutor._execute_single` (step_executor.py lines 99-219):
validate the kind's required field — a `command` kind missing its
command text is marked skipped and halts unless `on_failure` is
`continue`; a file-based kind missing its file is marked skipped and
tolerated; an invalid or missing step file is marked skipped and
halts — then render the arguments and hand over to build-and-run. -/
def executeSingle (ctx : ExecCtx) (w : World) (steps : LedgerSteps) (step : Step)
    (index : Nat) (suffix : String) : LedgerSteps × ExecResult :=
  let key := stepIdOf step index ++ suffix
  if step.getKind == "command" then
    if commandMissing step then
      (markSkipped steps key "missing command",
        if step.getOnFailure == "continue" then .cont else .halt)
    else executeBuildAndRun ctx w steps step index suffix none []
  else
    if fileMissing step then (markSkipped steps key "missing file", .cont)
    else
      match findStepFile (step.file.getD "") ctx.data_dir with
      | .error e => (markSkipped steps key e, .halt)
      | .ok path =>
        if w.fileExists path then
          let rendered_args := step.args.map (fun a =>
            replacePlaceholders a ctx.env_name ctx.deployment_plan ctx.deployment_type
              ctx.group_vars)
          executeBuildAndRun ctx w steps step index suffix (some path) rendered_args
        else (markSkipped steps key "file not found", .halt)

/-- The per-host loop of `StepExecutor._execute_iterated`
(step_executor.py lines 88-97): run the step once per host with the
host substituted into `hosts` and the ledger key suffixed by
`"_{host}"`, stopping at the first unit that does not continue. -/
def executeIteratedAux (ctx : ExecCtx) (w : World) (step : Step) (index : Nat) :
    LedgerSteps → List String → LedgerSteps × ExecResult
  | steps, [] => (steps, .cont)
  | steps, host :: rest =>
    match executeSingle ctx w steps { step with hosts := some (.str host) } index
        ("_" ++ host) with
    | (steps1, .cont) => executeIteratedAux ctx w step index steps1 rest
    | (steps1, r) => (steps1, r)

/-- `StepExecutor._execute_iterated` (step_executor.py lines 84-97). -/
def executeIterated (ctx : ExecCtx) (w : World) (steps : LedgerSteps) (step : Step)
    (index : Nat) : LedgerSteps × ExecResult :=
  executeIteratedAux ctx w step index steps step.hostsListD

/-- `StepExecutor.execute_step` (step_executor.py lines 41-73): a step
without a kind is marked skipped and tolerated; with resume enabled a
step whose ledger status is `ok` is skipped untouched; otherwise the
step executes iterated or as a single unit with the bare key. -/
def executeStep (ctx : ExecCtx) (w : World) (steps : LedgerSteps) (step : Step)
    (index : Nat) : LedgerSteps × ExecResult :=
  let step_id := stepIdOf step index
  if step.getKind == "" then (markSkipped steps step_id "missing kind", .cont)
  else if ctx.resume && isCompleted steps step_id then (steps, .cont)
  else if shouldIterate step then executeIterated ctx w steps step index
  else executeSingle ctx w steps step index ""

/-- The driving loop of `deploy-env.py` (lines 328-337): execute the
plan in order from the given 1-based index, stopping at the first step
whose executor result is not a continue; the Boolean reports whether
every step was processed. -/
def runSteps (ctx : ExecCtx) (w : World) : LedgerSteps → List Step → Nat →
    LedgerSteps × Bool
  | steps, [], _ => (steps, true)
  | steps, step :: rest, index =>
    match executeStep ctx w steps step index with
    | (steps1, .cont) => runSteps ctx w steps1 rest (index + 1)
    | (steps1, _) => (steps1, false)

/-- The ordered key list of a ledger `steps` mapping. -/
def stepKeys (steps : LedgerSteps) : List String := steps.map (·.1)

/-- The terminal status `_execute_single` records for an exit code. -/
def statusOfExit (e : Int) : String := if e = 0 then "ok" else "failed"

theorem assocFind_setAssoc_self {α : Type} (l : List (String × α)) (k : String) (v : α) :
    assocFind (setAssoc l k v) k = some v := by
  induction l with
  | nil => simp [setAssoc, assocFind]
  | cons p rest ih =>
    by_cases h : p.1 == k
    · simp [setAssoc, h, assocFind]
    · simp [setAssoc, h, assocFind, ih]

theorem assocFind_setAssoc_ne {α : Type} (l : List (String × α)) (k k' : String) (v : α)
    (h : k' ≠ k) : assocFind (setAssoc l k v) k' = assocFind l k' := by
  induction l with
  | nil =>
    simp only [setAssoc, assocFind]
    have : (k == k') = false := by
      simp only [beq_eq_false_iff_ne]
      exact fun hh => h hh.symm
    simp [this]
  | cons p rest ih =>
    by_cases hp : p.1 == k
    · have hk : p.1 = k := by simpa using hp
      have : (p.1 == k') = false := by
        simp only [beq_eq_false_iff_ne]
        rw [hk]; exact fun hh => h hh.symm
      simp [setAssoc, hp, assocFind, this]
    · by_cases hp' : p.1 == k'
      · simp [setAssoc, hp, assocFind, hp']
      · simp [setAssoc, hp, assocFind, hp', ih]

theorem setAssoc_of_none {α : Type} (l : List (String × α)) (k : String) (v : α)
    (h : assocFind l k = none) : setAssoc l k v = l ++ [(k, v)] := by
  induction l with
  | nil => simp [setAssoc]
  | cons p rest ih =>
    by_cases hp : p.1 == k
    · simp [assocFind, hp] at h
    · simp only [assocFind, hp] at h
      simp only [setAssoc, hp, if_neg, List.cons_append, List.cons.injEq, true_and]
      simpa using ih h

theorem assocFind_append_single_ne {α : Type} (l : List (String × α)) (k k' : String) (v : α)
    (h : k' ≠ k) : assocFind (l ++ [(k, v)]) k' = assocFind l k' := by
  induction l with
  | nil =>
    have : (k == k') = false := by
      simp only [beq_eq_false_iff_ne]
      exact fun hh => h hh.symm
    simp [assocFind, this]
  | cons p rest ih =>
    by_cases hp : p.1 == k'
    · simp [assocFind, hp]
    · simp [assocFind, hp, ih]

theorem lookupStep_setStatusIn_self (steps : LedgerSteps) (k s : String) :
    lookupStep (setStatusIn steps k s) k =
      (lookupStep steps k).map (fun e => { e with status := s }) := by
  induction steps with
  | nil => simp [setStatusIn, lookupStep, assocFind]
  | cons p rest ih =>
    obtain ⟨k0, e0⟩ := p
    by_cases hp : k0 = k
    · subst hp
      simp [setStatusIn, lookupStep, assocFind]
    · simpa [setStatusIn, lookupStep, assocFind, hp] using ih

theorem lookupStep_setStatusIn_ne (steps : LedgerSteps) (k k' s : String) (h : k' ≠ k) :
    lookupStep (setStatusIn steps k s) k' = lookupStep steps k' := by
  induction steps with
  | nil => simp [setStatusIn, lookupStep, assocFind]
  | cons p rest ih =>
    obtain ⟨k0, e0⟩ := p
    by_cases hp : k0 = k
    · subst hp
      have hk : k0 ≠ k' := fun hh => h hh.symm
      simpa [setStatusIn, lookupStep, assocFind, hk] using ih
    · by_cases hp' : k0 = k'
      · subst hp'
        simp [setStatusIn, lookupStep, assocFind, hp]
      · simpa [setStatusIn, lookupStep, assocFind, hp, hp'] using ih

theorem setStatusIn_of_none (steps : LedgerSteps) (k s : String)
    (h : lookupStep steps k = none) : setStatusIn steps k s = steps := by
  induction steps with
  | nil => simp [setStatusIn]
  | cons p rest ih =>
    obtain ⟨k0, e0⟩ := p
    by_cases hp : k0 = k
    · subst hp
      simp [lookupStep, assocFind] at h
    · have h' : lookupStep rest k = none := by
        simpa [lookupStep, assocFind, hp] using h
      simp [setStatusIn, hp, ih h']

theorem stepKeys_setStatusIn (steps : LedgerSteps) (k s : String) :
    stepKeys (setStatusIn steps k s) = stepKeys steps := by
  induction steps with
  | nil => rfl
  | cons p rest ih =>
    obtain ⟨k0, e0⟩ := p
    by_cases hp : k0 = k
    · subst hp
      simpa [stepKeys, setStatusIn] using ih
    · simpa [stepKeys, setStatusIn, hp] using ih

theorem stringAppendLeftCancel (s a b : String) (h : s ++ a = s ++ b) : a = b := by
  have hd : (s ++ a).data = (s ++ b).data := congrArg String.data h
  simp only [String.data_append] at hd
  exact congrArg String.mk (List.append_cancel_left hd)

/-- The host-suffixed ledger key of one iteration of a step. -/
def unitKey (step : Step) (index : Nat) (host : String) : String :=
  stepIdOf step index ++ ("_" ++ host)

theorem stepKeys_setAssoc_fresh (steps : LedgerSteps) (k : String) (e : StepEntry)
    (h : lookupStep steps k = none) :
    stepKeys (setAssoc steps k e) = stepKeys steps ++ [k] := by
  rw [setAssoc_of_none steps k e h]
  simp [stepKeys]

theorem executeBuildAndRun_ok (ctx : ExecCtx) (w : World) (steps : LedgerSteps)
    (step : Step) (index : Nat) (suffix : String) (step_file : Option String)
    (rargs : List String) (argv : List String)
    (hb : buildCommand ctx step step_file rargs = .ok argv) :
    executeBuildAndRun ctx w steps step index suffix step_file rargs =
      (if w.runExit argv (unitLogFile ctx step index suffix) = 0 then
        (markSuccess
          (markRunning steps (stepIdOf step index ++ suffix) (unitLogFile ctx step index suffix)
            step.getKind (unitDesc step suffix)) (stepIdOf step index ++ suffix),
         ExecResult.cont)
       else
        (markFailed
          (markRunning steps (stepIdOf step index ++ suffix) (unitLogFile ctx step index suffix)
            step.getKind (unitDesc step suffix)) (stepIdOf step index ++ suffix),
         if step.getOnFailure == "continue" then ExecResult.cont else ExecResult.halt)) := by
  simp [executeBuildAndRun, hb]

theorem executeSingle_command (ctx : ExecCtx) (w : World) (steps : LedgerSteps)
    (step : Step) (index : Nat) (suffix : String) (c : String)
    (hk : step.getKind = "command") (hc : step.command = some c) (hc' : c ≠ "") :
    executeSingle ctx w steps step index suffix =
      executeBuildAndRun ctx w steps step index suffix none [] := by
  have hm : commandMissing step = false := by simp [commandMissing, hc, hc']
  simp [executeSingle, hk, hm]

theorem execUnit_run (ctx : ExecCtx) (w : World) (steps : LedgerSteps) (step : Step)
    (index : Nat) (suffix : String) (c : String) (argv : List String)
    (hk : step.getKind = "command") (hc : step.command = some c) (hc' : c ≠ "")
    (hb : buildCommand ctx step none [] = .ok argv)
    (hfresh : lookupStep steps (stepIdOf step index ++ suffix) = none) :
    stepKeys (executeSingle ctx w steps step index suffix).1 =
      stepKeys steps ++ [stepIdOf step index ++ suffix]
    ∧ getStepStatus (executeSingle ctx w steps step index suffix).1
        (stepIdOf step index ++ suffix) =
      some (statusOfExit (w.runExit argv (unitLogFile ctx step index suffix)))
    ∧ (∀ k', k' ≠ stepIdOf step index ++ suffix →
        lookupStep (executeSingle ctx w steps step index suffix).1 k' =
          lookupStep steps k')
    ∧ (executeSingle ctx w steps step index suffix).2 =
      (if w.runExit argv (unitLogFile ctx step index suffix) = 0 then ExecResult.cont
       else if step.getOnFailure == "continue" then ExecResult.cont else ExecResult.halt) := by
  rw [executeSingle_command ctx w steps step index suffix c hk hc hc',
    executeBuildAndRun_ok ctx w steps step index suffix none [] argv hb]
  set key := stepIdOf step index ++ suffix with hkey
  set lf := unitLogFile ctx step index suffix with hlf
  set running := markRunning steps key lf step.getKind (unitDesc step suffix) with hrun
  have hkeys : stepKeys running = stepKeys steps ++ [key] :=
    stepKeys_setAssoc_fresh steps key _ hfresh
  have hlook : lookupStep running key =
      some { status := "running", log := some lf, kind := some step.getKind,
             description := some (unitDesc step suffix) } :=
    assocFind_setAssoc_self steps key _
  have hframe : ∀ k', k' ≠ key → lookupStep running k' = lookupStep steps k' :=
    fun k' h => assocFind_setAssoc_ne steps key k' _ h
  by_cases he : w.runExit argv lf = 0
  · refine ⟨?_, ?_, ?_, ?_⟩
    · simpa [he, markSuccess, stepKeys_setStatusIn] using hkeys
    · simp [he, markSuccess, getStepStatus, lookupStep_setStatusIn_self, statusOfExit, hlook]
    · intro k' h
      simp only [he, if_pos]
      calc lookupStep (markSuccess running key) k'
          = lookupStep running k' := lookupStep_setStatusIn_ne running key k' "ok" h
        _ = lookupStep steps k' := hframe k' h
    · simp [he]
  · refine ⟨?_, ?_, ?_, ?_⟩
    · simpa [he, markFailed, stepKeys_setStatusIn] using hkeys
    · simp [he, markFailed, getStepStatus, lookupStep_setStatusIn_self, statusOfExit, hlook]
    · intro k' h
      simp only [he, if_neg]
      calc lookupStep (markFailed running key) k'
          = lookupStep running k' := lookupStep_setStatusIn_ne running key k' "failed" h
        _ = lookupStep steps k' := hframe k' h
    · simp [he]

theorem executeStep_dispatch_single (ctx : ExecCtx) (w : World) (steps : LedgerSteps)
    (step : Step) (index : Nat) (hk : step.getKind ≠ "")
    (hcomp : (ctx.resume && isCompleted steps (stepIdOf step index)) = false)
    (hsi : shouldIterate step = false) :
    executeStep ctx w steps step index = executeSingle ctx w steps step index "" := by
  simp [executeStep, hk, hcomp, hsi]

theorem executeStep_dispatch_iterated (ctx : ExecCtx) (w : World) (steps : LedgerSteps)
    (step : Step) (index : Nat) (hk : step.getKind ≠ "")
    (hcomp : (ctx.resume && isCompleted steps (stepIdOf step index)) = false)
    (hsi : shouldIterate step = true) :
    executeStep ctx w steps step index = executeIterated ctx w steps step index := by
  simp [executeStep, hk, hcomp, hsi]

theorem shouldIterate_enum_iff (step : Step)
    (hmem : step.getKind ∈ ["command", "ansible", "python", "python3", "shell", "bash", "sh"]) :
    shouldIterate step = true ↔
      (step.getKind = "command" ∧ step.iterate = true ∧
        ∃ l, step.getHostsD = Hosts.list l ∧ 1 < l.length) := by
  simp only [List.mem_cons, List.not_mem_nil, or_false] at hmem
  constructor
  · intro h
    simp only [shouldIterate, Bool.and_eq_true] at h
    obtain ⟨⟨h1, h2⟩, h3⟩ := h
    have hcmd : step.getKind = "command" := by
      rcases hmem with h|h|h|h|h|h|h <;> rw [h] at h1 ⊢ <;>
        first
        | rfl
        | (exfalso; revert h1; decide)
    refine ⟨hcmd, h2, ?_⟩
    cases hh : step.getHostsD with
    | str s => rw [hh] at h3; simp at h3
    | list l =>
      rw [hh] at h3
      exact ⟨l, rfl, by simpa using h3⟩
  · rintro ⟨h1, h2, l, h3, h4⟩
    have hl : pyLower "command" = "command" := by decide
    simp [shouldIterate, h1, h2, h3, hl, h4]

/-- An inventory document for the concrete runs: three directly listed
hosts and one `web` group containing `node1`, as in the specification
example. -/
def demoInv : InvGroup :=
  .mk [] none
    [("machines",
      .mk [] (some [("hostA", [("ansible_host", "10.0.0.1")]),
                    ("hostB", [("ansible_host", "10.0.0.2")]),
                    ("hostC", [("ansible_host", "10.0.0.3")])]) []),
     ("web", .mk [] (some [("node1", [("ansible_host", "10.0.0.5")])]) [])]

/-- A concrete execution context for the witnesses. -/
def demoCtx : ExecCtx :=
  { env_name := "prod", deployment_plan := "default", deployment_type := "basekit",
    group_vars := [], data_dir := "/install/data", log_path := "/logs",
    inventory_file := "/install/data/inventory.yml", user := "root",
    inventory := demoInv, resume := false }

/-- The same context with `--resume` enabled. -/
def demoCtxResume : ExecCtx := { demoCtx with resume := true }

/-- A world in which every file exists and every process succeeds. -/
def demoW : World :=
  { fileExists := fun _ => true, procOutcome := fun _ _ => .exited 0 }

/-- A world in which the process targeting `hostB` fails with exit
code 1 while every other process succeeds. -/
def demoWMixed : World :=
  { fileExists := fun _ => true,
    procOutcome := fun argv _ => if argv.contains "root@10.0.0.2" then .exited 1 else .exited 0 }

/-- A ledger with one step already recorded `ok`, for the resume
witnesses. -/
def demoLedgerOk : LedgerSteps := [("1", { status := "ok" })]

/-- A well-formed localhost command step. -/
def stepC1 : Step :=
  { kind := some "command", command := some "echo hi", hosts := some (.str "localhost") }

/-- C1: with resume enabled, `execute_step` skips a (kinded) step,
leaving the ledger untouched and re-invoking nothing, exactly when the
ledger's stored status for the step's key is `ok`; otherwise it
proceeds to the iterated or single execution path, and `is_completed`
returns true exactly when the stored status is `ok` (so `running`,
`failed` and `skipped` entries are re-attempted). -/
theorem c1_resume_skip_iff_ok (ctx : ExecCtx) (w : World) (steps : LedgerSteps)
    (step : Step) (index : Nat) (hkind : step.getKind ≠ "") (hres : ctx.resume = true) :
    (isCompleted steps (stepIdOf step index) = true →
       executeStep ctx w steps step index = (steps, ExecResult.cont))
    ∧ (isCompleted steps (stepIdOf step index) = false →
       executeStep ctx w steps step index =
         (if shouldIterate step then executeIterated ctx w steps step index
          else executeSingle ctx w steps step index ""))
    ∧ (∀ st k, isCompleted st k = true ↔ getStepStatus st k = some "ok") := by
  refine ⟨?_, ?_, ?_⟩
  · intro h
    simp [executeStep, hkind, hres, h]
  · intro h
    simp [executeStep, hkind, hres, h]
  · intro st k
    cases hl : lookupStep st k with
    | none => simp [isCompleted, getStepStatus, hl]
    | some e => simp [isCompleted, getStepStatus, hl]

/-- C1 witness: a concrete resumed run skips a step recorded `ok`. -/
theorem c1_witness :
    executeStep demoCtxResume demoW demoLedgerOk stepC1 1 = (demoLedgerOk, ExecResult.cont) :=
  (c1_resume_skip_iff_ok demoCtxResume demoW demoLedgerOk stepC1 1 (by decide) rfl).1
    (by decide)

/-- A command step missing its `command` text, tolerating failure. -/
def stepC2 : Step := { kind := some "command", on_failure := some "continue" }

/-- C2 counterexample: a `command` step without a `command` field and
with `on_failure: continue` gets a ledger entry of status `skipped`
(not `failed`) and the executor continues, so the run does not halt
regardless of `on_failure` as the claim states. -/
theorem c2_counterexample :
    getStepStatus (executeSingle demoCtx demoW [] stepC2 1 "").1 "1" = some "skipped"
    ∧ getStepStatus (executeSingle demoCtx demoW [] stepC2 1 "").1 "1" ≠ some "failed"
    ∧ (executeSingle demoCtx demoW [] stepC2 1 "").2 = ExecResult.cont := by
  refine ⟨by decide, by decide, by decide⟩

/-- C2 amended: a missing required field is recorded as `skipped`, not
`failed`: a `command` unit missing its command text halts the run only
when `on_failure` is not `continue`; a file-based unit missing its
`file` is tolerated (the run continues unconditionally); and a missing
`kind` is likewise recorded `skipped` and tolerated. -/
theorem c2_missing_field_marks_skipped (ctx : ExecCtx) (w : World) (steps : LedgerSteps)
    (step : Step) (index : Nat) (suffix : String) :
    (step.getKind = "command" → commandMissing step = true →
       executeSingle ctx w steps step index suffix =
         (markSkipped steps (stepIdOf step index ++ suffix) "missing command",
          if step.getOnFailure == "continue" then ExecResult.cont else ExecResult.halt))
    ∧ (step.getKind ≠ "command" → fileMissing step = true →
       executeSingle ctx w steps step index suffix =
         (markSkipped steps (stepIdOf step index ++ suffix) "missing file", ExecResult.cont))
    ∧ (step.getKind = "" →
       executeStep ctx w steps step index =
         (markSkipped steps (stepIdOf step index) "missing kind", ExecResult.cont)) := by
  refine ⟨?_, ?_, ?_⟩
  · intro hk hm
    simp [executeSingle, hk, hm]
  · intro hk hm
    simp [executeSingle, hk, hm]
  · intro hk
    simp [executeStep, hk]

/-- C2 witness: the amended behaviour at the concrete missing-command
step. -/
theorem c2_witness :
    executeSingle demoCtx demoW [] stepC2 1 "" =
      (markSkipped [] "1" "missing command", ExecResult.cont) := by
  have h := (c2_missing_field_marks_skipped demoCtx demoW [] stepC2 1 "").1
    (by decide) (by decide)
  exact h.trans (by decide)

/-- The specification example step: kind `command` targeting
`localhost` with text `echo hi`. -/
def stepC6 : Step :=
  { kind := some "command", hosts := some (.str "localhost"), command := some "echo hi" }

/-- C6: the command builder wraps a localhost command in exactly
`/bin/bash -c <text>`. -/
theorem c6_localhost_command_vector :
    buildCommand demoCtx stepC6 none [] = .ok ["/bin/bash", "-c", "echo hi"] := by decide

/-- C7: loading the ledger from a missing or unparsable state file
returns the fresh empty document (empty `steps` mapping) rather than
propagating the error. -/
theorem c7_load_self_heals :
    stateLoad .missing =
      { env := none, deployment_type := none, deployment_plan := none, steps := [] }
    ∧ stateLoad .parseFailure =
      { env := none, deployment_type := none, deployment_plan := none, steps := [] }
    ∧ (stateLoad .missing).steps = [] ∧ (stateLoad .parseFailure).steps = [] :=
  ⟨rfl, rfl, rfl, rfl⟩

/-- C8 counterexample: a process that itself exits with code 124 yields
the same exit code from the runner as a timeout kill, and that code is
a failure code — so the timeout code is not distinct from the exit
code of every other execution failure. -/
theorem c8_counterexample :
    runCommandExit (.exited 124) = runCommandExit .timedOut
    ∧ runCommandExit (.exited 124) ≠ 0 := ⟨rfl, by decide⟩

/-- C8 amended: a timeout kill makes the runner return the reserved
code 124, distinct from the runner's internal-failure code 1 and from
the code of any process that exits with anything other than 124; a
process exiting 124 itself is indistinguishable from a timeout. -/
theorem c8_timeout_code :
    runCommandExit .timedOut = 124
    ∧ runCommandExit .failedToRun = 1
    ∧ (∀ c : Int, c ≠ 124 → runCommandExit (.exited c) ≠ 124) :=
  ⟨rfl, rfl, fun _ h => h⟩

/-- C8 witness: the amended distinction at concrete exit codes. -/
theorem c8_witness :
    runCommandExit .timedOut = 124 ∧ runCommandExit (.exited 0) ≠ 124 :=
  ⟨c8_timeout_code.1, c8_timeout_code.2.2 0 (by decide)⟩

/-- A ledger with one running entry, for the mark witnesses. -/
def demoRunningLedger : LedgerSteps :=
  [("1", { status := "running", log := some "/logs/1-demo.log", kind := some "command",
           description := some "demo" })]

/-- C10: `mark_success` and `mark_failed` replace only the `status`
field of an existing entry, preserve every other entry, and are a
no-op on the mapping when the key is absent. -/
theorem c10_mark_frame (steps : LedgerSteps) (k : String) :
    (lookupStep (markSuccess steps k) k =
      (lookupStep steps k).map (fun e => { e with status := "ok" }))
    ∧ (∀ k', k' ≠ k → lookupStep (markSuccess steps k) k' = lookupStep steps k')
    ∧ (lookupStep steps k = none → markSuccess steps k = steps)
    ∧ (lookupStep (markFailed steps k) k =
      (lookupStep steps k).map (fun e => { e with status := "failed" }))
    ∧ (∀ k', k' ≠ k → lookupStep (markFailed steps k) k' = lookupStep steps k')
    ∧ (lookupStep steps k = none → markFailed steps k = steps) :=
  ⟨lookupStep_setStatusIn_self steps k "ok",
   fun k' h => lookupStep_setStatusIn_ne steps k k' "ok" h,
   setStatusIn_of_none steps k "ok",
   lookupStep_setStatusIn_self steps k "failed",
   fun k' h => lookupStep_setStatusIn_ne steps k k' "failed" h,
   setStatusIn_of_none steps k "failed"⟩

/-- C10 witness: the frame behaviour at a concrete ledger. -/
theorem c10_witness :
    lookupStep (markSuccess demoRunningLedger "1") "1" =
      some { status := "ok", log := some "/logs/1-demo.log", kind := some "command",
             description := some "demo" }
    ∧ lookupStep (markSuccess demoRunningLedger "1") "2" = lookupStep demoRunningLedger "2"
    ∧ markFailed demoRunningLedger "9" = demoRunningLedger :=
  ⟨((c10_mark_frame demoRunningLedger "1").1).trans (by decide),
   (c10_mark_frame demoRunningLedger "1").2.1 "2" (by decide),
   (c10_mark_frame demoRunningLedger "9").2.2.2.2.2 (by decide)⟩

theorem execUnit_cont (ctx : ExecCtx) (w : World) (steps : LedgerSteps) (step : Step)
    (index : Nat) (host cmd : String) (v : List String)
    (hk : step.kind = some "command") (hc : step.command = some cmd) (hcne : cmd ≠ "")
    (honf : step.on_failure = some "continue")
    (hb : buildCommand ctx { step with hosts := some (.str host) } none [] = .ok v)
    (hfresh : lookupStep steps (unitKey step index host) = none) :
    executeSingle ctx w steps { step with hosts := some (.str host) } index ("_" ++ host) =
      ((executeSingle ctx w steps { step with hosts := some (.str host) } index
          ("_" ++ host)).1, ExecResult.cont)
    ∧ stepKeys (executeSingle ctx w steps { step with hosts := some (.str host) } index
        ("_" ++ host)).1 = stepKeys steps ++ [unitKey step index host]
    ∧ getStepStatus (executeSingle ctx w steps { step with hosts := some (.str host) } index
        ("_" ++ host)).1 (unitKey step index host) =
      some (statusOfExit (w.runExit v
        (unitLogFile ctx { step with hosts := some (.str host) } index ("_" ++ host))))
    ∧ (∀ k', k' ≠ unitKey step index host →
        lookupStep (executeSingle ctx w steps { step with hosts := some (.str host) } index
          ("_" ++ host)).1 k' = lookupStep steps k') := by
  have hk' : ({ step with hosts := some (.str host) } : Step).getKind = "command" := by
    simp [Step.getKind, hk]
  obtain ⟨hK, hS, hF, hR⟩ :=
    execUnit_run ctx w steps { step with hosts := some (.str host) } index ("_" ++ host)
      cmd v hk' hc hcne hb hfresh
  have hr : (executeSingle ctx w steps { step with hosts := some (.str host) } index
      ("_" ++ host)).2 = ExecResult.cont := by
    rw [hR]
    have honf' : ({ step with hosts := some (.str host) } : Step).getOnFailure = "continue" := by
      simp [Step.getOnFailure, honf]
    rw [honf']
    split <;> rfl
  refine ⟨?_, hK, hS, hF⟩
  rw [← hr]

theorem execIterAux_three (ctx : ExecCtx) (w : World) (steps : LedgerSteps) (step : Step)
    (index : Nat) (a b c0 cmd : String) (va vb vc : List String)
    (hk : step.kind = some "command") (hc : step.command = some cmd) (hcne : cmd ≠ "")
    (honf : step.on_failure = some "continue")
    (kdab : unitKey step index a ≠ unitKey step index b)
    (kdac : unitKey step index a ≠ unitKey step index c0)
    (kdbc : unitKey step index b ≠ unitKey step index c0)
    (hba : buildCommand ctx { step with hosts := some (.str a) } none [] = .ok va)
    (hbb : buildCommand ctx { step with hosts := some (.str b) } none [] = .ok vb)
    (hbcc : buildCommand ctx { step with hosts := some (.str c0) } none [] = .ok vc)
    (hfa : lookupStep steps (unitKey step index a) = none)
    (hfb : lookupStep steps (unitKey step index b) = none)
    (hfc : lookupStep steps (unitKey step index c0) = none) :
    stepKeys (executeIteratedAux ctx w step index steps [a, b, c0]).1 =
      stepKeys steps ++ [unitKey step index a, unitKey step index b, unitKey step index c0]
    ∧ getStepStatus (executeIteratedAux ctx w step index steps [a, b, c0]).1
        (unitKey step index a) =
      some (statusOfExit (w.runExit va
        (unitLogFile ctx { step with hosts := some (.str a) } index ("_" ++ a))))
    ∧ getStepStatus (executeIteratedAux ctx w step index steps [a, b, c0]).1
        (unitKey step index b) =
      some (statusOfExit (w.runExit vb
        (unitLogFile ctx { step with hosts := some (.str b) } index ("_" ++ b))))
    ∧ getStepStatus (executeIteratedAux ctx w step index steps [a, b, c0]).1
        (unitKey step index c0) =
      some (statusOfExit (w.runExit vc
        (unitLogFile ctx { step with hosts := some (.str c0) } index ("_" ++ c0)))) := by
  obtain ⟨hPa, hKa, hSa, hFa⟩ :=
    execUnit_cont ctx w steps step index a cmd va hk hc hcne honf hba hfa
  set st1 := (executeSingle ctx w steps { step with hosts := some (.str a) } index
    ("_" ++ a)).1 with hst1
  have hfb1 : lookupStep st1 (unitKey step index b) = none := by
    rw [hFa _ (Ne.symm kdab)]; exact hfb
  have hfc1 : lookupStep st1 (unitKey step index c0) = none := by
    rw [hFa _ (Ne.symm kdac)]; exact hfc
  obtain ⟨hPb, hKb, hSb, hFb⟩ :=
    execUnit_cont ctx w st1 step index b cmd vb hk hc hcne honf hbb hfb1
  set st2 := (executeSingle ctx w st1 { step with hosts := some (.str b) } index
    ("_" ++ b)).1 with hst2
  have hfc2 : lookupStep st2 (unitKey step index c0) = none := by
    rw [hFb _ (Ne.symm kdbc)]; exact hfc1
  obtain ⟨hPc, hKc, hSc, hFc⟩ :=
    execUnit_cont ctx w st2 step index c0 cmd vc hk hc hcne honf hbcc hfc2
  set st3 := (executeSingle ctx w st2 { step with hosts := some (.str c0) } index
    ("_" ++ c0)).1 with hst3
  have hrun : executeIteratedAux ctx w step index steps [a, b, c0] = (st3, ExecResult.cont) := by
    simp only [executeIteratedAux, hPa, hPb, hPc]
  rw [hrun]
  refine ⟨?_, ?_, ?_, ?_⟩
  · rw [hKc, hKb, hKa]
    simp
  · unfold getStepStatus
    rw [hFc _ kdac, hFb _ kdab]
    exact hSa
  · unfold getStepStatus
    rw [hFc _ kdbc]
    exact hSb
  · exact hSc

/-- C3: a step iterates once per host exactly when its kind is
`command`, `iterate` is set, and `hosts` is a list longer than one (for
the enumerated kinds of the data model); for such a step with hosts
`[a, b, c]` (distinct, resolvable, tolerant of failure) exactly the
three distinct suffixed ledger keys are appended, each holding `ok` or
`failed` according to its own unit's exit code; every step that does
not iterate runs as a single unit under the unsuffixed key. -/
theorem c3_iteration_per_host (ctx : ExecCtx) (w : World) (steps : LedgerSteps)
    (step : Step) (index : Nat) (a b c0 cmd : String) (va vb vc : List String)
    (hk : step.kind = some "command")
    (hit : step.iterate = true)
    (hh : step.hosts = some (.list [a, b, c0]))
    (hres : ctx.resume = false)
    (hc : step.command = some cmd) (hcne : cmd ≠ "")
    (honf : step.on_failure = some "continue")
    (hab : a ≠ b) (hac : a ≠ c0) (hbc : b ≠ c0)
    (hba : buildCommand ctx { step with hosts := some (.str a) } none [] = .ok va)
    (hbb : buildCommand ctx { step with hosts := some (.str b) } none [] = .ok vb)
    (hbcc : buildCommand ctx { step with hosts := some (.str c0) } none [] = .ok vc)
    (hfa : lookupStep steps (unitKey step index a) = none)
    (hfb : lookupStep steps (unitKey step index b) = none)
    (hfc : lookupStep steps (unitKey step index c0) = none) :
    (unitKey step index a ≠ unitKey step index b
      ∧ unitKey step index a ≠ unitKey step index c0
      ∧ unitKey step index b ≠ unitKey step index c0)
    ∧ stepKeys (executeStep ctx w steps step index).1 =
        stepKeys steps ++ [unitKey step index a, unitKey step index b, unitKey step index c0]
    ∧ getStepStatus (executeStep ctx w steps step index).1 (unitKey step index a) =
        some (statusOfExit (w.runExit va
          (unitLogFile ctx { step with hosts := some (.str a) } index ("_" ++ a))))
    ∧ getStepStatus (executeStep ctx w steps step index).1 (unitKey step index b) =
        some (statusOfExit (w.runExit vb
          (unitLogFile ctx { step with hosts := some (.str b) } index ("_" ++ b))))
    ∧ getStepStatus (executeStep ctx w steps step index).1 (unitKey step index c0) =
        some (statusOfExit (w.runExit vc
          (unitLogFile ctx { step with hosts := some (.str c0) } index ("_" ++ c0))))
    ∧ (∀ (ctx2 : ExecCtx) (w2 : World) (steps2 : LedgerSteps) (step2 : Step) (index2 : Nat),
        step2.getKind ≠ "" →
        (ctx2.resume && isCompleted steps2 (stepIdOf step2 index2)) = false →
        shouldIterate step2 = false →
        executeStep ctx2 w2 steps2 step2 index2 = executeSingle ctx2 w2 steps2 step2 index2 "")
    ∧ (∀ step3 : Step,
        step3.getKind ∈ ["command", "ansible", "python", "python3", "shell", "bash", "sh"] →
        (shouldIterate step3 = true ↔
          (step3.getKind = "command" ∧ step3.iterate = true ∧
            ∃ l, step3.getHostsD = Hosts.list l ∧ 1 < l.length))) := by
  have hkind : step.getKind = "command" := by simp [Step.getKind, hk]
  have hkne : step.getKind ≠ "" := by rw [hkind]; decide
  have hdist : unitKey step index a ≠ unitKey step index b
      ∧ unitKey step index a ≠ unitKey step index c0
      ∧ unitKey step index b ≠ unitKey step index c0 := by
    refine ⟨fun h => hab ?_, fun h => hac ?_, fun h => hbc ?_⟩ <;>
      exact stringAppendLeftCancel "_" _ _ (stringAppendLeftCancel _ _ _ h)
  have hlow : pyLower "command" = "command" := by decide
  have hsi : shouldIterate step = true := by
    simp [shouldIterate, hkind, hlow, hit, Step.getHostsD, hh]
  have hstep : executeStep ctx w steps step index = executeIterated ctx w steps step index :=
    executeStep_dispatch_iterated ctx w steps step index hkne (by simp [hres]) hsi
  have hlist : step.hostsListD = [a, b, c0] := by simp [Step.hostsListD, hh]
  have hiter : executeIterated ctx w steps step index =
      executeIteratedAux ctx w step index steps [a, b, c0] := by
    rw [executeIterated, hlist]
  obtain ⟨hK, hSa, hSb, hSc⟩ :=
    execIterAux_three ctx w steps step index a b c0 cmd va vb vc hk hc hcne honf
      hdist.1 hdist.2.1 hdist.2.2 hba hbb hbcc hfa hfb hfc
  rw [hstep, hiter]
  exact ⟨hdist, hK, hSa, hSb, hSc,
    fun ctx2 w2 steps2 step2 index2 h1 h2 h3 =>
      executeStep_dispatch_single ctx2 w2 steps2 step2 index2 h1 h2 h3,
    fun step3 hmem => shouldIterate_enum_iff step3 hmem⟩

/-- The iterated three-host command step used by the concrete runs. -/
def stepC3 : Step :=
  { id := some "5", kind := some "command", command := some "uptime",
    hosts := some (.list ["hostA", "hostB", "hostC"]), iterate := true,
    on_failure := some "continue" }

/-- C3 witness: the concrete iterated run over `hostA`, `hostB`,
`hostC` (with `hostB` failing) creates exactly the three suffixed keys
with independent statuses. -/
theorem c3_witness :
    stepKeys (executeStep demoCtx demoWMixed [] stepC3 1).1 =
      ["5_hostA", "5_hostB", "5_hostC"]
    ∧ getStepStatus (executeStep demoCtx demoWMixed [] stepC3 1).1 "5_hostA" = some "ok"
    ∧ getStepStatus (executeStep demoCtx demoWMixed [] stepC3 1).1 "5_hostB" = some "failed"
    ∧ getStepStatus (executeStep demoCtx demoWMixed [] stepC3 1).1 "5_hostC" = some "ok" := by
  obtain ⟨_, hK, hSa, hSb, hSc, _, _⟩ :=
    c3_iteration_per_host demoCtx demoWMixed [] stepC3 1 "hostA" "hostB" "hostC" "uptime"
      ["ssh", "-o", "StrictHostKeyChecking=no", "-o", "UserKnownHostsFile=/dev/null",
       "-o", "ConnectTimeout=30", "-tt", "root@10.0.0.1", "uptime"]
      ["ssh", "-o", "StrictHostKeyChecking=no", "-o", "UserKnownHostsFile=/dev/null",
       "-o", "ConnectTimeout=30", "-tt", "root@10.0.0.2", "uptime"]
      ["ssh", "-o", "StrictHostKeyChecking=no", "-o", "UserKnownHostsFile=/dev/null",
       "-o", "ConnectTimeout=30", "-tt", "root@10.0.0.3", "uptime"]
      rfl rfl rfl rfl rfl (by decide) rfl (by decide) (by decide) (by decide)
      (by decide) (by decide) (by decide) rfl rfl rfl
  exact ⟨hK.trans (by decide), hSa.trans (by decide), hSb.trans (by decide),
    hSc.trans (by decide)⟩

/-- A world in which every process fails with exit code 2. -/
def demoWFail : World :=
  { fileExists := fun _ => true, procOutcome := fun _ _ => .exited 2 }

/-- A localhost command step with the default failure policy. -/
def stepC4 : Step :=
  { kind := some "command", command := some "false", hosts := some (.str "localhost") }

/-- A failing file-based (`shell`) step with the default policy. -/
def stepC4b : Step := { kind := some "shell", file := some "tasks/check.sh" }

/-- C4: for a unit of any kind whose built process exits non-zero, the
shared run tail (step_executor.py lines 163-219) marks the ledger
entry `failed` and reports that the run may proceed exactly when
`on_failure` is `continue` (so `fail` or an absent policy halts); both
the `command`-kind route and the file-based route of every validated
unit reach that tail; a halting step stops the driving loop with the
ledger as of that step, so no later step gains a ledger entry, while a
continuing step lets the loop move to the rest of the plan. -/
theorem c4_failure_policy :
    (∀ (ctx : ExecCtx) (w : World) (steps : LedgerSteps) (step : Step) (index : Nat)
        (suffix : String) (step_file : Option String) (rargs argv : List String),
      buildCommand ctx step step_file rargs = .ok argv →
      w.runExit argv (unitLogFile ctx step index suffix) ≠ 0 →
      getStepStatus (executeBuildAndRun ctx w steps step index suffix step_file rargs).1
          (stepIdOf step index ++ suffix) = some "failed"
      ∧ ((executeBuildAndRun ctx w steps step index suffix step_file rargs).2 =
          ExecResult.cont ↔ step.getOnFailure = "continue"))
    ∧ (∀ (ctx : ExecCtx) (w : World) (steps : LedgerSteps) (step : Step) (index : Nat)
        (suffix cmd : String),
      step.getKind = "command" → step.command = some cmd → cmd ≠ "" →
      executeSingle ctx w steps step index suffix =
        executeBuildAndRun ctx w steps step index suffix none [])
    ∧ (∀ (ctx : ExecCtx) (w : World) (steps : LedgerSteps) (step : Step) (index : Nat)
        (suffix f path : String),
      step.getKind ≠ "command" → step.file = some f → f ≠ "" →
      findStepFile f ctx.data_dir = .ok path → w.fileExists path = true →
      executeSingle ctx w steps step index suffix =
        executeBuildAndRun ctx w steps step index suffix (some path)
          (step.args.map (fun a => replacePlaceholders a ctx.env_name ctx.deployment_plan
            ctx.deployment_type ctx.group_vars)))
    ∧ (∀ (ctx : ExecCtx) (w : World) (steps : LedgerSteps) (step : Step) (rest : List Step)
        (index : Nat) (st : LedgerSteps),
      executeStep ctx w steps step index = (st, ExecResult.halt) →
      runSteps ctx w steps (step :: rest) index = (st, false))
    ∧ (∀ (ctx : ExecCtx) (w : World) (steps : LedgerSteps) (step : Step) (rest : List Step)
        (index : Nat) (st : LedgerSteps),
      executeStep ctx w steps step index = (st, ExecResult.cont) →
      runSteps ctx w steps (step :: rest) index = runSteps ctx w st rest (index + 1)) := by
  refine ⟨?_, ?_, ?_, ?_, ?_⟩
  · intro ctx w steps step index suffix step_file rargs argv hb he
    rw [executeBuildAndRun_ok ctx w steps step index suffix step_file rargs argv hb]
    rw [if_neg he]
    constructor
    · have h2 : lookupStep (markRunning steps (stepIdOf step index ++ suffix)
          (unitLogFile ctx step index suffix) step.getKind (unitDesc step suffix))
          (stepIdOf step index ++ suffix) =
          some { status := "running", log := some (unitLogFile ctx step index suffix),
                 kind := some step.getKind, description := some (unitDesc step suffix) } :=
        assocFind_setAssoc_self steps _ _
      have h1 := lookupStep_setStatusIn_self (markRunning steps
          (stepIdOf step index ++ suffix) (unitLogFile ctx step index suffix)
          step.getKind (unitDesc step suffix)) (stepIdOf step index ++ suffix) "failed"
      simp [getStepStatus, markFailed, h1, h2]
    · by_cases ho : step.getOnFailure = "continue"
      · simp [ho]
      · simp [ho]
  · intro ctx w steps step index suffix cmd hk hc hcne
    exact executeSingle_command ctx w steps step index suffix cmd hk hc hcne
  · intro ctx w steps step index suffix f path hk hf hfne hfind hex
    have hm : fileMissing step = false := by simp [fileMissing, hf, hfne]
    simp [executeSingle, hk, hm, hf, hfind, hex]
  · intro ctx w steps step rest index st h
    simp [runSteps, h]
  · intro ctx w steps step rest index st h
    simp [runSteps, h]

/-- C4 witness: a concrete failing `shell` (file-based) step and a
concrete failing localhost `command` step are both marked `failed`
with the run-may-proceed report tied to `on_failure`, and the failing
command step (default policy) stops the driving loop before any later
step. -/
theorem c4_witness :
    getStepStatus (executeSingle demoCtx demoWFail [] stepC4b 1 "").1 "1" = some "failed"
    ∧ ((executeSingle demoCtx demoWFail [] stepC4b 1 "").2 = ExecResult.cont ↔
        stepC4b.getOnFailure = "continue")
    ∧ getStepStatus (executeSingle demoCtx demoWFail [] stepC4 1 "").1 "1" = some "failed"
    ∧ runSteps demoCtx demoWFail [] [stepC4, stepC1] 1 =
        ((executeStep demoCtx demoWFail [] stepC4 1).1, false) := by
  have hfile := c4_failure_policy.2.2.1 demoCtx demoWFail [] stepC4b 1 "" "tasks/check.sh"
    "/install/data/tasks/check.sh" (by decide) rfl (by decide) (by decide) (by decide)
  obtain ⟨hb1, hb2⟩ := c4_failure_policy.1 demoCtx demoWFail [] stepC4b 1 ""
    (some "/install/data/tasks/check.sh")
    (stepC4b.args.map (fun a => replacePlaceholders a demoCtx.env_name demoCtx.deployment_plan
      demoCtx.deployment_type demoCtx.group_vars))
    ["/bin/bash", "/install/data/tasks/check.sh"] (by decide) (by decide)
  have hcmd := c4_failure_policy.2.1 demoCtx demoWFail [] stepC4 1 "" "false"
    rfl rfl (by decide)
  obtain ⟨hc1, _⟩ := c4_failure_policy.1 demoCtx demoWFail [] stepC4 1 "" none []
    ["/bin/bash", "-c", "false"] (by decide) (by decide)
  refine ⟨?_, ?_, ?_, ?_⟩
  · rw [hfile]; exact hb1
  · rw [hfile]; exact hb2
  · rw [hcmd]; exact hc1
  · exact c4_failure_policy.2.2.2.1 demoCtx demoWFail [] stepC4 [stepC1] 1
      (executeStep demoCtx demoWFail [] stepC4 1).1 (by decide)

/-- C5: resolving `localhost` returns the fixed local descriptor for
every inventory (the inventory contents are never consulted, even if
they define a host named `localhost`); resolving a name that matches a
child group returns the merged connection info of the first host
listed under that group; and a name the search does not find raises
the host-not-found error. -/
theorem c5_host_resolution :
    (∀ (user : String) (inv : InvGroup),
      getHostFromInventory user inv "localhost" = .ok (localDescriptor user))
    ∧ (∀ (user name : String) (vars : List (String × String))
        (topHosts : Option (List (String × List (String × String))))
        (children : List (String × InvGroup)) (gvars : List (String × String))
        (h1 : String) (hd1 : List (String × String))
        (hrest : List (String × List (String × String))) (gch : List (String × InvGroup)),
      name ≠ "localhost" →
      (∀ hs, topHosts = some hs → assocFind hs name = none) →
      assocFind children name = some (InvGroup.mk gvars (some ((h1, hd1) :: hrest)) gch) →
      updateAssoc (updateAssoc hd1 gvars) (updateAssoc [] vars) ≠ [] →
      getHostFromInventory user (InvGroup.mk vars topHosts children) name =
        .ok (updateAssoc (updateAssoc hd1 gvars) (updateAssoc [] vars)))
    ∧ (∀ (user : String) (inv : InvGroup) (name : String),
      name ≠ "localhost" → findHost inv name [] = Except.ok none →
      getHostFromInventory user inv name = .error (.notFound (hostNotFoundMsg name))) := by
  refine ⟨?_, ?_, ?_⟩
  · intro user inv
    simp [getHostFromInventory]
  · intro user name vars topHosts children gvars h1 hd1 hrest gch hname hmiss hgrp hne
    have hhit : (topHosts.bind (fun hs =>
        (assocFind hs name).map (fun hd => updateAssoc hd (updateAssoc [] vars)))) = none := by
      cases topHosts with
      | none => rfl
      | some hs => simp [hmiss hs rfl]
    have hie : (updateAssoc (updateAssoc hd1 gvars) (updateAssoc [] vars)).isEmpty = false := by
      cases hcase : updateAssoc (updateAssoc hd1 gvars) (updateAssoc [] vars) with
      | nil => exact absurd hcase hne
      | cons x xs => rfl
    have hfind : findHost (InvGroup.mk vars topHosts children) name [] =
        .ok (some (updateAssoc (updateAssoc hd1 gvars) (updateAssoc [] vars))) := by
      simp only [findHost, hhit, hgrp, InvGroup.hostsOf, InvGroup.varsOf]
    simp [getHostFromInventory, hname, hfind, hie]
  · intro user inv name hname hfind
    simp [getHostFromInventory, hname, hfind]

/-- C5 witness: localhost, the `web` group from the specification
example, and a missing name, all against the concrete inventory. -/
theorem c5_witness :
    getHostFromInventory "root" demoInv "localhost" = .ok (localDescriptor "root")
    ∧ getHostFromInventory "root" demoInv "web" = .ok [("ansible_host", "10.0.0.5")]
    ∧ getHostFromInventory "root" demoInv "nope" =
        .error (.notFound (hostNotFoundMsg "nope")) := by
  refine ⟨c5_host_resolution.1 "root" demoInv, ?_, ?_⟩
  · have h := c5_host_resolution.2.1 "root" "web" [] none
      [("machines", .mk [] (some [("hostA", [("ansible_host", "10.0.0.1")]),
            ("hostB", [("ansible_host", "10.0.0.2")]),
            ("hostC", [("ansible_host", "10.0.0.3")])]) []),
       ("web", .mk [] (some [("node1", [("ansible_host", "10.0.0.5")])]) [])]
      [] "node1" [("ansible_host", "10.0.0.5")] [] []
      (by decide) (fun hs h => Option.noConfusion h) rfl (by decide)
    exact h.trans (by decide)
  · exact c5_host_resolution.2.2 "root" demoInv "nope" (by decide) (by decide)

/-- The iterated ledger carrying only host-suffixed entries, all `ok`. -/
def demoLedgerIter : LedgerSteps :=
  [("5_hostA", { status := "ok" }), ("5_hostB", { status := "ok" }),
   ("5_hostC", { status := "ok" })]

/-- C9: the resume check consults the bare step id while an iterated
step records only host-suffixed keys, so even when every per-host entry
is `ok`, a resumed run finds the bare key incomplete and proceeds to
re-execute the whole per-host iteration instead of skipping it. -/
theorem c9_resume_never_skips_iterated (ctx : ExecCtx) (w : World) (steps : LedgerSteps)
    (step : Step) (index : Nat)
    (hsi : shouldIterate step = true)
    (hres : ctx.resume = true)
    (hbare : lookupStep steps (stepIdOf step index) = none)
    (_hok : ∀ h ∈ step.hostsListD, getStepStatus steps (unitKey step index h) = some "ok") :
    isCompleted steps (stepIdOf step index) = false
    ∧ executeStep ctx w steps step index = executeIterated ctx w steps step index := by
  have hic : isCompleted steps (stepIdOf step index) = false := by
    simp [isCompleted, hbare]
  have hkind : step.getKind ≠ "" := by
    intro h
    have hlow : (pyLower "" == "command") = false := by decide
    rw [shouldIterate, h, hlow] at hsi
    simp at hsi
  exact ⟨hic, executeStep_dispatch_iterated ctx w steps step index hkind
    (by simp [hres, hic]) hsi⟩

/-- C9 witness: the concrete iterated step whose three per-host entries
are all `ok` is still re-executed by a resumed run. -/
theorem c9_witness :
    isCompleted demoLedgerIter "5" = false
    ∧ executeStep demoCtxResume demoW demoLedgerIter stepC3 1 =
        executeIterated demoCtxResume demoW demoLedgerIter stepC3 1 :=
  c9_resume_never_skips_iterated demoCtxResume demoW demoLedgerIter stepC3 1
    (by decide) rfl (by decide) (by decide)
